import Mathlib

/-!
Shallow embedding of the candidate-generation and verification core of the
rust-overlaps program (src/structs.rs, src/search.rs, src/verification.rs,
src/prepare.rs), together with theorems settling the frozen claims about it.

Bytes are modelled as `Nat` values, Rust `usize`/`u32` quantities as `Nat`
(with explicit truncation where it matters), `i32` quantities as `Int`, and
the `f32` error rate as `ℚ` with exact floor/ceil.  External collaborators
(the FM index, the Kucherov filter policy) are abstract parameters, as the
claims hold for every instantiation.
-/

set_option linter.unusedVariables false

namespace Overlaps

/-- The designated read-error placeholder byte, `b'N'` (search.rs line 21). -/
def READ_ERR : Nat := 78

/-- Orientation tag of a solution (structs.rs). -/
inductive Orient where
  | Normal
  | Reversed
  deriving DecidableEq, Repr

/-- Internal, unoriented candidate record (structs.rs lines 13-20).
Rust derives `Hash, PartialEq, Eq`, which compare and hash ALL fields,
including `debug_str`.  Lean's structural equality on this structure is
exactly the derived `PartialEq`. -/
structure Candidate where
  id_b : Nat
  overlap_a : Nat
  overlap_b : Nat
  overhang_left_a : Int
  debug_str : String
  deriving DecidableEq, Repr

/-- The ordered tuple of fields a Rust derived `Hash` feeds to the hasher for
a `Candidate`: every field, in declaration order, `debug_str` included. -/
def candidateHashFields (c : Candidate) : Nat × Nat × Nat × Int × String :=
  (c.id_b, c.overlap_a, c.overlap_b, c.overhang_left_a, c.debug_str)

/-- `HashSet::insert` membership semantics for candidates: a new element is
added only when no equal (by derived `PartialEq`) element is present. -/
def insertCand (s : List Candidate) (c : Candidate) : List Candidate :=
  if c ∈ s then s else s ++ [c]

/-- Oriented, external solution record (structs.rs lines 23-34; the cigar
string is descriptive only and this version of verification.rs never sets
it, so it is omitted here). -/
structure Solution where
  id_a : Nat
  id_b : Nat
  orientation : Orient
  overhang_left_a : Int
  overhang_right_b : Int
  overlap_a : Nat
  overlap_b : Nat
  errors : Nat
  deriving DecidableEq, Repr

/-- The run configuration fields consumed by the core (structs.rs
`run_config::Config`; `input`, `output`, logging and threading fields are
irrelevant to the claims).  `alphabet` stands for `config.alphabet()`. -/
structure Config where
  err_rate : ℚ
  thresh : Int
  reversals : Bool
  inclusions : Bool
  edit_distance : Bool
  alphabet : List Nat
  deriving DecidableEq, Repr

/-- The `Maps` structure (structs.rs `run_config::Maps`): the concatenated
text, the id -> display-name vector (names as byte lists) and the BidirMap
of id -> start index, kept as an association list. -/
structure Maps where
  text : List Nat
  id2name_vec : List (List Nat)
  id2index : List (Nat × Nat)
  num_ids : Nat
  deriving DecidableEq, Repr

namespace Maps

/-- `id2index_bdmap.get_by_first(&id)`. -/
def getByFirst (m : Maps) (id : Nat) : Option Nat :=
  (m.id2index.find? (fun p => p.1 = id)).map (·.2)

/-- `get_end_index` (structs.rs lines 95-102); the `expect` default is 0. -/
def getEndIndex (m : Maps) (id : Nat) : Nat :=
  if id = m.num_ids - 1 then m.text.length - 1
  else (m.getByFirst (id + 1)).getD 0 - 1

/-- `get_length` (structs.rs lines 90-93). -/
def getLength (m : Maps) (id : Nat) : Nat :=
  m.getEndIndex id - (m.getByFirst id).getD 0

/-- `get_string` (structs.rs lines 85-88): the slice
`text[start..end]`. -/
def getString (m : Maps) (id : Nat) : List Nat :=
  (m.text.drop ((m.getByFirst id).getD 0)).take (m.getLength id)

/-- `find_occurrence_containing` (structs.rs lines 105-113): linear scan for
the entry with the greatest start offset `ind` with `ind ≤ index`, starting
from the default `best = (0, 1)`. -/
def findOccurrenceContaining (m : Maps) (index : Nat) : Nat × Nat :=
  m.id2index.foldl
    (fun best p => if p.2 ≤ index ∧ p.2 > best.2 then p else best) (0, 1)

/-- `get_name_for` (structs.rs lines 115-117); out-of-range default `[]`. -/
def getNameFor (m : Maps) (id : Nat) : List Nat :=
  m.id2name_vec.getD id []

/-- Modelled from the spec: `id_for(position)`, the Identity Map's direct
reverse lookup from a text start offset to the sequence id ("for
non-inclusions this is a direct id/offset lookup"); the method itself lives
outside src/. -/
def idFor (m : Maps) (index : Nat) : Nat :=
  ((m.id2index.find? (fun p => p.2 = index)).map (·.1)).getD 0

end Maps

/-- Modelled from the spec: `companion_id(id)` from the orientation helper
(useful.rs, outside src/): "id of the reverse-complement partner sequence,
if reversal mode is active".  prepare.rs interleaves originals (even ids)
with their synthesized reverse complements (odd ids), so the partner of an
even id is the next id and vice versa; without reversals an id is its own
companion. -/
def companion_id (id : Nat) (reversals : Bool) : Nat :=
  if reversals then (if id % 2 = 0 then id + 1 else id - 1) else id

/-- Modelled from the spec: `is_reverse_complement_entry` /
`for_reversed_string` from the orientation helper (outside src/): an id
denotes a synthesized reverse-complement sequence exactly when it is odd
(see the interleaving in prepare.rs). -/
def for_reversed_string (id : Nat) : Bool :=
  id % 2 = 1

/-- Modelled from the spec: `relative_orientation(id_a, id_b)` (outside
src/): same-strand vs reverse-complement tag for a pair. -/
def relative_orientation (id_a id_b : Nat) (reversals : Bool) : Orient :=
  if reversals ∧ id_a % 2 ≠ id_b % 2 then Orient.Reversed else Orient.Normal

/-- Lexicographic byte comparison of display names:
`name_a.cmp(name_b) != Ordering::Greater`. -/
def nameLe : List Nat → List Nat → Bool
  | [], _ => true
  | _ :: _, [] => false
  | x :: xs, y :: ys =>
    if x < y then true else if y < x then false else nameLe xs ys

/-- `hamming` from the bio crate: positionwise mismatch count of two
equal-length byte strings (the caller asserts equal lengths). -/
def hammingDist (a b : List Nat) : Nat :=
  (a.zip b).countP (fun p => p.1 ≠ p.2)

/-- `levenshtein` from the bio crate: the standard unit-cost edit distance. -/
def levenshtein : List Nat → List Nat → Nat
  | [], ys => ys.length
  | xs, [] => xs.length
  | x :: xs, y :: ys =>
    if x = y then levenshtein xs ys
    else 1 + min (levenshtein xs ys)
            (min (levenshtein (x :: xs) ys) (levenshtein xs (y :: ys)))
  termination_by a b => a.length + b.length
  decreasing_by
    all_goals simp [List.length_cons]
    all_goals omega

/-- `error_at_pos_in_both` (verification.rs lines 100-110); the asserted
nonemptiness is a caller contract, out-of-range reads default to 0. -/
def error_at_pos_in_both (a_part b_part : List Nat) (first : Bool) : Nat :=
  let a_ind := if first then 0 else a_part.length - 1
  let b_ind := if first then 0 else b_part.length - 1
  if a_part.getD a_ind 0 ≠ b_part.getD b_ind 0 then 1
  else if a_part.getD a_ind 0 = READ_ERR then 1 else 0

/-- `modified_levenshtein` (verification.rs lines 76-97).  `std::u32::MAX`
is `2 ^ 32 - 1`; interior slices `[1..len-1]` become drop/take. -/
def modified_levenshtein (a_part b_part : List Nat) : Nat :=
  if a_part.length = b_part.length ∧ a_part.length ≤ 2 then
    (if 1 ≤ a_part.length then error_at_pos_in_both a_part b_part true else 0)
      + (if 2 ≤ a_part.length then error_at_pos_in_both a_part b_part false else 0)
  else if a_part.length < 2 ∨ b_part.length < 2 then
    2 ^ 32 - 1
  else
    levenshtein ((a_part.drop 1).take (a_part.length - 2))
        ((b_part.drop 1).take (b_part.length - 2))
      + error_at_pos_in_both a_part b_part true
      + error_at_pos_in_both a_part b_part false

namespace Candidate

/-- Modelled from the spec: the `Candidate::a1` accessor (not under src/;
see the verify() annotation and search.rs lines 325-329: `overhang_left_a`
collapses `a1` and `b1`, "with one always being zero").  The query-side
"before" length. -/
def a1 (c : Candidate) : Nat := c.overhang_left_a.toNat

/-- Modelled from the spec: the `Candidate::b1` accessor (not under src/):
the matched-side "before" length, recovered from the collapsed overhang. -/
def b1 (c : Candidate) : Nat := (-c.overhang_left_a).toNat

/-- Modelled from the spec: the `Candidate::a2` accessor (not under src/):
the query-side overlap length. -/
def a2 (c : Candidate) : Nat := c.overlap_a

/-- Modelled from the spec: the `Candidate::b2` accessor (not under src/):
the matched-side overlap length. -/
def b2 (c : Candidate) : Nat := c.overlap_b

/-- Modelled from the spec: the `Candidate::a3` accessor (not under src/):
the query-side tail length `a_len - a1 - a2` (signed, so the `a3 == 0`
assertion is meaningful). -/
def a3 (c : Candidate) (a_len : Nat) : Int :=
  (a_len : Int) - c.a1 - c.overlap_a

/-- Modelled from the spec: the `Candidate::b3` accessor (not under src/):
the matched-side tail length; "b3 is usize, so implicitly b3 >= 0"
(verification.rs line 53). -/
def b3 (c : Candidate) (b_len : Nat) : Nat :=
  b_len - c.b1 - c.overlap_b

end Candidate

namespace Solution

/-- Modelled from the spec: `Solution::v_flip` (not under src/): "swap the
two sides' roles, geometry, and overhangs". -/
def v_flip (s : Solution) : Solution :=
  { s with
    id_a := s.id_b
    id_b := s.id_a
    overlap_a := s.overlap_b
    overlap_b := s.overlap_a
    overhang_left_a := -s.overhang_left_a
    overhang_right_b := -s.overhang_right_b }

/-- Modelled from the spec: flipping the orientation tag. -/
def flipOrient : Orient → Orient
  | Orient.Normal => Orient.Reversed
  | Orient.Reversed => Orient.Normal

/-- Modelled from the spec: `Solution::h_flip` (not under src/): "re-express
the solution as if both sequences were read in their original
(non-complemented) orientation, adjusting overhangs/orientation tag
accordingly" — both ids are replaced by their companions, the orientation
tag flips and the overhangs trade places. -/
def h_flip (s : Solution) (reversals : Bool) : Solution :=
  { s with
    id_a := companion_id s.id_a reversals
    id_b := companion_id s.id_b reversals
    orientation := flipOrient s.orientation
    overhang_left_a := s.overhang_right_b
    overhang_right_b := s.overhang_left_a }

/-- Modelled from the spec: `Solution::mirror_horizontally` (not under
src/): "unconditionally mirror all offsets/overhangs once more to
compensate for the Text Store holding every sequence reversed"; the ids and
orientation are untouched. -/
def mirror_horizontally (s : Solution) : Solution :=
  { s with
    overhang_left_a := s.overhang_right_b
    overhang_right_b := s.overhang_left_a }

end Solution

/-- `id_order_ok` (verification.rs lines 143-147): display name of `id_a`
compares not-Greater to that of `id_b`. -/
def id_order_ok (sol : Solution) (maps : Maps) : Bool :=
  nameLe (maps.getNameFor sol.id_a) (maps.getNameFor sol.id_b)

/-- `translate_solution_to_external` (verification.rs lines 149-169).  The
entry assertions (`id_a != id_b`, and under reversals
`id_a != companion_id(id_b)`) are caller contracts; the transforms
themselves are modelled totally and the final assertions are proved as
theorems. -/
def translate_solution_to_external (sol : Solution) (config : Config) (maps : Maps) : Solution :=
  let s1 := if id_order_ok sol maps = false then sol.v_flip else sol
  let s2 := if config.reversals = true ∧ for_reversed_string s1.id_a = true
            then s1.h_flip config.reversals else s1
  s2.mirror_horizontally

/-- `solution_from_candidate` (verification.rs lines 123-140). -/
def solution_from_candidate (c : Candidate) (id_a : Nat) (errors : Nat)
    (maps : Maps) (config : Config) : Solution :=
  let a_len := maps.getLength id_a
  let b_len := maps.getLength c.id_b
  let orientation := relative_orientation id_a c.id_b config.reversals
  let sol : Solution :=
    { id_a := id_a
      id_b := c.id_b
      orientation := orientation
      overlap_a := c.overlap_a
      overlap_b := c.overlap_b
      overhang_left_a := c.overhang_left_a
      overhang_right_b := (c.b3 b_len : Int) - c.a3 a_len
      errors := errors }
  translate_solution_to_external sol config maps

/-- The error count computed inside `verify` (verification.rs lines 58-63):
modified Levenshtein in edit-distance mode, Hamming otherwise. -/
def verifyErrors (id_a : Nat) (c : Candidate) (config : Config) (maps : Maps) : Nat :=
  let a_part := ((maps.getString id_a).drop c.a1).take c.a2
  let b_part := ((maps.getString c.id_b).drop c.b1).take c.b2
  if config.edit_distance = true then modified_levenshtein a_part b_part
  else hammingDist a_part b_part

/-- `verify` (verification.rs lines 50-69).  The two panics — the
`assert_eq!(c.a3(a_len), 0)` on entry and the equal-length assertion in the
Hamming branch — are modelled as `none`. -/
def verify (id_a : Nat) (c : Candidate) (config : Config) (maps : Maps) : Option Solution :=
  let a_len := maps.getLength id_a
  if c.a3 a_len ≠ 0 then none
  else
    let a_part := ((maps.getString id_a).drop c.a1).take c.a2
    let b_part := ((maps.getString c.id_b).drop c.b1).take c.b2
    let k_limit : Nat :=
      (Int.floor (config.err_rate * (max c.overlap_a c.overlap_b : ℚ))).toNat
    if config.edit_distance = false ∧ a_part.length ≠ b_part.length then none
    else
      let errors := verifyErrors id_a c config maps
      if errors ≤ k_limit then
        some (solution_from_candidate c id_a errors maps config)
      else none

/-- The four-state automaton carried through the search recursion
(search.rs lines 243-249). -/
inductive LastOperation where
  | Initial
  | Substitution
  | Insertion
  | Deletion
  deriving DecidableEq, Repr, BEq

namespace LastOperation

/-- `LastOperation::allows_deletion` (search.rs lines 256-259). -/
def allows_deletion (l : LastOperation) : Bool :=
  l == LastOperation.Deletion || l == LastOperation.Substitution

/-- `LastOperation::allows_insertion` (search.rs lines 261-264). -/
def allows_insertion (l : LastOperation) : Bool :=
  l == LastOperation.Insertion || l == LastOperation.Substitution

/-- `LastOperation::allows_candidates` (search.rs lines 266-269). -/
def allows_candidates (l : LastOperation) : Bool :=
  l == LastOperation.Initial || l == LastOperation.Substitution

end LastOperation

/-- An inclusive rank interval (empty when `lower > upper`).  The bounds
are `Int`: the one subtraction `less + occ - 1` is the mathematically
intended value of the Rust `usize` expression (in this program
`less(a) ≥ 1` for every alphabet symbol, so the Rust subtraction never
wraps). -/
structure Intv where
  lower : Int
  upper : Int
  deriving DecidableEq, Repr

/-- The external FM index adapter: `less`, `occ` and interval resolution
against the suffix array (`Interval::occ(sa)`). -/
structure FMEnv where
  less : Nat → Nat
  occ : Int → Nat → Nat
  resolve : Intv → List Nat

/-- `SearchConstants` (search.rs lines 369-384); the suffix array lives in
`FMEnv.resolve`. -/
structure SearchConstants where
  config : Config
  maps : Maps
  block_id_lookup : List Int
  pattern : List Nat
  id_a : Nat
  blind_a_chars : Nat
  hard_error_cap : Int
  max_b_len : Nat
  first_block_id : Int
  patt_blocks : Int

/-- `smaller` (search.rs lines 232-241): lower-case debug marker for a
mismatching symbol. -/
def smaller (a : Nat) : Char :=
  if a = 65 then 'a'
  else if a = 67 then 'c'
  else if a = 78 then 'n'
  else if a = 71 then 'g'
  else if a = 84 then 't'
  else '?'

/-- `completed_blocks` (search.rs lines 121-126): the block lookup at
`p_i as usize`, where a negative `p_i` (or one past the end) misses and
yields the whole-pattern count. -/
def completedBlocks (cns : SearchConstants) (p_i : Int) : Int :=
  match (if p_i < 0 then none else cns.block_id_lookup.get? p_i.toNat) with
  | some x => x - cns.first_block_id
  | none => cns.patt_blocks - cns.first_block_id

/-- `permitted_errors` (search.rs line 128): minimum of the hard cap and
the filter policy's progress-dependent bound `filter_func`. -/
def permittedErrors (cns : SearchConstants) (filter_func : Int → Int → Int)
    (p_i : Int) : Int :=
  min cns.hard_error_cap (filter_func (completedBlocks cns p_i) cns.patt_blocks)

/-- The per-call state of `recurse_candidates` (search.rs lines 105-114),
made explicit.  `sym` additionally records the alphabet symbol of the loop
iteration that spawned the call (`none` for the deletion branch, which is
taken outside the loop). -/
structure CallArgs where
  errors : Int
  p_i : Int
  lastOp : LastOperation
  aML : Nat
  bML : Nat
  iv : Intv
  sym : Option Nat
  debug : String
  deriving DecidableEq, Repr

/-- The backward-search extension interval for symbol `a`
(search.rs lines 169-173). -/
def nextInterval (fm : FMEnv) (iv : Intv) (a : Nat) : Intv :=
  { lower := fm.less a + (if iv.lower > 0 then (fm.occ (iv.lower - 1) a : Int) else 0)
    upper := fm.less a + (fm.occ iv.upper a : Int) - 1 }

/-- The list of recursive calls spawned by one step of `recurse_candidates`
(search.rs lines 164-228): per alphabet symbol a Substitution child (error
bound permitting) and an Insertion child (edit-distance mode, guarded by
`allows_insertion` and a differing symbol), followed by the Deletion child
after the loop. -/
def stepChildren (fm : FMEnv) (config : Config) (permitted : Int) (p_char : Nat)
    (args : CallArgs) : List CallArgs :=
  (config.alphabet.flatMap (fun a =>
    let next_iv := nextInterval fm args.iv a
    let recurse_errors := if p_char = a ∧ a ≠ READ_ERR then args.errors else args.errors + 1
    let debug_a : Char := if p_char = a then Char.ofNat a else smaller a
    (if recurse_errors ≤ permitted then
      [{ errors := recurse_errors
         p_i := args.p_i - 1
         lastOp := LastOperation.Substitution
         aML := args.aML + 1
         bML := args.bML + 1
         iv := next_iv
         sym := some a
         debug := String.mk [debug_a] ++ args.debug }]
     else [])
    ++
    (if args.errors < permitted ∧ config.edit_distance = true
        ∧ args.lastOp.allows_insertion = true ∧ p_char ≠ a then
      [{ errors := args.errors + 1
         p_i := args.p_i
         lastOp := LastOperation.Insertion
         aML := args.aML
         bML := args.bML + 1
         iv := next_iv
         sym := some a
         debug := String.mk [debug_a] ++ "." ++ args.debug }]
     else [])))
  ++
  (if config.edit_distance = true ∧ args.errors < permitted ∧ ¬(args.p_i ≤ -1)
      ∧ args.lastOp.allows_deletion = true then
    [{ errors := args.errors + 1
       p_i := args.p_i - 1
       lastOp := LastOperation.Deletion
       aML := args.aML + 1
       bML := args.bML
       iv := args.iv
       sym := none
       debug := "_" ++ args.debug }]
   else [])

/-- The `min_b2` bound of the matched-side overlap length
(search.rs lines 330-342): `a2` itself under Hamming, else the ceiling of
`a2 * (1 - err_rate)` (saturating `usize` cast) or the matched length
actually walked, whichever is larger. -/
def minB2 (cns : SearchConstants) (a2 b_match_len : Nat) : Nat :=
  if cns.config.edit_distance = false then a2
  else max (Int.toNat (Int.ceil ((a2 : ℚ) * (1 - cns.config.err_rate)))) b_match_len

/-- The `max_b2` bound of the matched-side overlap length
(search.rs lines 330-342): `a2` itself under Hamming, else the floor of
`a2 / (1 - err_rate)` clamped to the matched sequence's real length. -/
def maxB2 (cns : SearchConstants) (a2 b_len : Nat) : Nat :=
  if cns.config.edit_distance = false then a2
  else min (Int.toNat (Int.floor ((a2 : ℚ) / (1 - cns.config.err_rate)))) b_len

/-- The `for b2 in possible_b2s` loop (search.rs lines 343-363): one
Candidate per integral `b2` in `[min_b2, max_b2]`, skipping lengths whose
matched-side remainder `b3` is negative. -/
def b2Loop (id_b a2 b_len : Nat) (a1 b1 : Int) (min_b2 max_b2 : Nat)
    (new_debug : String) : List Candidate :=
  (List.range (max_b2 + 1 - min_b2)).filterMap (fun k =>
    if ((b_len : Int) - b1 - ((min_b2 + k : Nat) : Int)) < 0 then none
    else some { id_b := id_b
                overlap_a := a2
                overlap_b := min_b2 + k
                overhang_left_a := a1 - b1
                debug_str := new_debug })

/-- The body of the position loop of `add_candidates_from_positions`
(search.rs lines 280-363) for a single raw text position.  Panics of the
Rust original — the two `assert!`s and the two `usize` subtractions that
can underflow (`a_len - a2` for non-inclusions, `position - index_b` for
inclusions) — are modelled as `none`. -/
def candidatesForPosition (cns : SearchConstants) (a_match_len b_match_len : Nat)
    (debug : String) (inclusion : Bool) (position0 : Nat) : Option (List Candidate) :=
  let position := if inclusion = false then position0 + 1 else position0
  let id_b := if inclusion = true then (cns.maps.findOccurrenceContaining position).1
              else cns.maps.idFor position
  let index_b := if inclusion = true then (cns.maps.findOccurrenceContaining position).2
                 else position
  if id_b = cns.id_a ∨ (cns.config.edit_distance = true
      ∧ cns.id_a = companion_id cns.id_a cns.config.reversals) then some []
  else if cns.config.edit_distance = true ∧ cns.id_a > id_b then some []
  else
    let a_len := cns.pattern.length
    let b_len := cns.maps.getLength id_b
    let a2 := a_match_len + cns.blind_a_chars
    if inclusion = false ∧ a_len < a2 then none
    else
      let a1 : Int := if inclusion = true then 0 else (a_len : Int) - a2
      let a3 : Int := (a_len : Int) - a1 - a2
      if a3 ≠ 0 then none
      else if inclusion = true ∧ position < index_b then none
      else
        let b1 : Int := if inclusion = true then (position : Int) - index_b else 0
        if a1 * b1 ≠ 0 then none
        else
          let new_debug := debug ++ " incl " ++ toString inclusion
                             ++ " blind " ++ toString cns.blind_a_chars
          some (b2Loop id_b a2 b_len a1 b1 (minB2 cns a2 b_match_len)
            (maxB2 cns a2 b_len) new_debug)

/-- Concatenation of two panic-aware candidate lists. -/
def optAppend (x y : Option (List Candidate)) : Option (List Candidate) :=
  match x, y with
  | some a, some b => some (a ++ b)
  | _, _ => none

/-- `add_candidates_from_positions` (search.rs lines 276-365): the loop over
all resolved positions. -/
def addCandidatesFromPositions (positions : List Nat) (cns : SearchConstants)
    (a_match_len b_match_len : Nat) (debug : String) (inclusion : Bool) :
    Option (List Candidate) :=
  positions.foldl
    (fun acc p =>
      optAppend acc (candidatesForPosition cns a_match_len b_match_len debug inclusion p))
    (some [])

/-- The `'$'`-extension interval used at the non-inclusion emission point
(search.rs lines 137-142); `b'$'` is byte 36 and the final interval has an
exclusive end. -/
def dollarInterval (fm : FMEnv) (iv : Intv) : Intv :=
  { lower := fm.less 36 + (if iv.lower > 0 then (fm.occ (iv.lower - 1) 36 : Int) else 0)
    upper := fm.less 36 + (fm.occ iv.upper 36 : Int) }

mutual

/-- `recurse_candidates` (search.rs lines 105-229), with explicit fuel (the
Rust recursion is bounded by the pattern length plus the insertion budget).
`filter_func` and `candidate_condition` are the external Kucherov policy
functions.  Fuel exhaustion returns `some []`; Rust panics (the
`expect("THE P CHAR")` and the panics inside the materializer) are `none`.
`recurseChildren` runs the spawned calls in order. -/
def recurse (fm : FMEnv) (filter_func : Int → Int → Int)
    (candidate_condition : Int → Int → Int → Int → Bool)
    (cns : SearchConstants) : Nat → CallArgs → Option (List Candidate)
  | 0, _ => some []
  | fuel + 1, args =>
    if args.iv.lower > args.iv.upper then some []
    else
      let permitted := permittedErrors cns filter_func args.p_i
      let generous_match_len := max args.aML args.bML + 1
      let cand_condition_satisfied :=
        candidate_condition (generous_match_len : Int) (completedBlocks cns args.p_i)
          cns.config.thresh args.errors
      let emitted :=
        if cand_condition_satisfied = true ∧ args.lastOp.allows_candidates = true then
          addCandidatesFromPositions (fm.resolve (dollarInterval fm args.iv)) cns
            args.aML args.bML args.debug false
        else some []
      if args.p_i ≤ -1 then
        if cns.config.inclusions = true ∧ cand_condition_satisfied = true
            ∧ args.lastOp.allows_candidates = true then
          optAppend emitted
            (addCandidatesFromPositions
              (fm.resolve { lower := args.iv.lower, upper := args.iv.upper + 1 }) cns
              args.aML args.bML args.debug true)
        else emitted
      else
        match cns.pattern.get? args.p_i.toNat with
        | none => none
        | some p_char =>
          optAppend emitted
            (recurseChildren fm filter_func candidate_condition cns fuel
              (stepChildren fm cns.config permitted p_char args))

/-- Runs `recurse` on each spawned child call in order, concatenating the
candidate lists and propagating panics. -/
def recurseChildren (fm : FMEnv) (filter_func : Int → Int → Int)
    (candidate_condition : Int → Int → Int → Int → Bool)
    (cns : SearchConstants) : Nat → List CallArgs → Option (List Candidate)
  | _, [] => some []
  | fuel, ch :: rest =>
    optAppend (recurse fm filter_func candidate_condition cns fuel ch)
      (recurseChildren fm filter_func candidate_condition cns fuel rest)

end

/-- `get_block_id_lookup` (search.rs lines 386-396): block id repeated per
block length, then reversed. -/
def get_block_id_lookup (block_lengths : List Int) : List Int :=
  ((block_lengths.enum.flatMap
    (fun p => List.replicate p.2.toNat (p.1 : Int)))).reverse

/-- The `SearchConstants` bundle built for one filter iteration
(search.rs lines 67-79): the hard error cap is
`floor(patt_len * err_rate)` and `blind_a_chars` is
`patt_len - p_i - 1`. -/
def mkSearchConstants (pattern : List Nat) (config : Config) (maps : Maps)
    (block_id_lookup : List Int) (id_a : Nat) (first_block_id : Int)
    (patt_blocks : Int) (p_i : Int) : SearchConstants :=
  { config := config
    maps := maps
    block_id_lookup := block_id_lookup
    pattern := pattern
    id_a := id_a
    blind_a_chars := pattern.length - (p_i.toNat + 1)
    hard_error_cap := Int.floor ((pattern.length : ℚ) * config.err_rate)
    max_b_len :=
      if config.edit_distance = true then
        (Int.floor ((pattern.length : ℚ) / (1 - config.err_rate))).toNat
      else pattern.length
    first_block_id := first_block_id
    patt_blocks := patt_blocks }

/-- The filter loop of `generate_candidates` (search.rs lines 64-89): one
fresh recursion per block, starting from the full interval at
`LastOperation::Initial`, with `p_i` retreating by one block length per
filter. -/
def generateFilters (fm : FMEnv) (filter_func : Int → Int → Int)
    (candidate_condition : Int → Int → Int → Int → Bool) (pattern : List Nat)
    (config : Config) (maps : Maps) (block_id_lookup : List Int) (id_a : Nat)
    (patt_blocks : Int) (bwt_len : Nat) (fuel : Nat) :
    List (Int × Int) → Int → Option (List Candidate)
  | [], _ => some []
  | (block_id, block_len) :: rest, p_i =>
    let cns := mkSearchConstants pattern config maps block_id_lookup id_a
      block_id patt_blocks p_i
    let full_interval : Intv := { lower := 0, upper := (bwt_len : Int) - 1 }
    optAppend
      (recurse fm filter_func candidate_condition cns fuel
        { errors := 0, p_i := p_i, lastOp := LastOperation.Initial,
          aML := 0, bML := 0, iv := full_interval, sym := none, debug := "" })
      (generateFilters fm filter_func candidate_condition pattern config maps
        block_id_lookup id_a patt_blocks bwt_len fuel rest (p_i - block_len))

/-- `generate_candidates` (search.rs lines 42-98), with the block partition
`block_lengths` supplied by the external policy
(`get_block_lengths(patt_len, err_rate, thresh)`).  The candidate set is
modelled as the list of insertions (claims never depend on its order). -/
def generateCandidates (fm : FMEnv) (filter_func : Int → Int → Int)
    (candidate_condition : Int → Int → Int → Int → Bool)
    (block_lengths : List Int) (pattern : List Nat) (config : Config)
    (maps : Maps) (id_a : Nat) (bwt_len : Nat) (fuel : Nat) :
    Option (List Candidate) :=
  let block_id_lookup := get_block_id_lookup block_lengths
  generateFilters fm filter_func candidate_condition pattern config maps
    block_id_lookup id_a (block_lengths.length : Int) bwt_len fuel
    (block_lengths.enum.map (fun p => ((p.1 : Int), p.2)))
    ((pattern.length : Int) - 1)

/-- Spec-side (claim C3) scoring of one overlap boundary: a forced
substitution, "even if nominally equal, with the ambiguous-base placeholder
always counting as an error at either end". -/
def specEndErr (a b : List Nat) (first : Bool) : Nat :=
  let ca := a.getD (if first then 0 else a.length - 1) 0
  let cb := b.getD (if first then 0 else b.length - 1) 0
  if ca ≠ cb ∨ ca = READ_ERR then 1 else 0

/-- Spec-side (claim C3) restatement of the specialized overlap distance,
written from the claim's words for refinement against
`modified_levenshtein`: equal lengths of at most 2 are scored position by
position with no insertions/deletions possible; unequal lengths with
either side shorter than 2 get a maximal sentinel distance; otherwise both
boundary positions are forced substitutions plus full edit distance of the
interiors. -/
def specOverlapDistance (a b : List Nat) : Nat :=
  if a.length = b.length ∧ a.length ≤ 2 then
    (a.zip b).countP (fun p => decide (p.1 ≠ p.2 ∨ p.1 = READ_ERR))
  else if a.length ≠ b.length ∧ (a.length < 2 ∨ b.length < 2) then
    2 ^ 32 - 1
  else
    specEndErr a b true + specEndErr a b false
      + levenshtein ((a.drop 1).take (a.length - 2)) ((b.drop 1).take (b.length - 2))

/-! ## Theorems -/

/-- C1: the spec claims Candidate equality and hashing ignore the debug
trace, so that two candidates differing only in `debug_str` deduplicate to
one entry.  The code derives `Hash, PartialEq, Eq` over ALL fields of
`Candidate`, `debug_str` included: at the concrete failing input below —
two candidates agreeing on `id_b`, `overlap_a`, `overlap_b` and
`overhang_left_a` and differing only in the trace — equality fails, the
field streams fed to the hasher differ, and inserting both into a
candidate set keeps two entries. -/
theorem C1_candidate_identity_includes_debug_trace :
    Candidate.mk 1 3 3 0 "walk via filter 0" ≠ Candidate.mk 1 3 3 0 "walk via filter 1"
    ∧ candidateHashFields (Candidate.mk 1 3 3 0 "walk via filter 0")
        ≠ candidateHashFields (Candidate.mk 1 3 3 0 "walk via filter 1")
    ∧ (insertCand (insertCand [] (Candidate.mk 1 3 3 0 "walk via filter 0"))
        (Candidate.mk 1 3 3 0 "walk via filter 1")).length = 2 := by
  refine ⟨by decide, by decide, ?_⟩
  decide

theorem specEndErr_eq_error_at_pos (a b : List Nat) (first : Bool) :
    specEndErr a b first = error_at_pos_in_both a b first := by
  simp only [specEndErr, error_at_pos_in_both]
  generalize a.getD (if first then 0 else a.length - 1) 0 = x
  generalize b.getD (if first then 0 else b.length - 1) 0 = y
  by_cases h1 : x = y <;> by_cases h2 : x = READ_ERR <;> simp [h1, h2]

theorem poswise_eq_countP (a b : List Nat) (hlen : a.length = b.length)
    (hle : a.length ≤ 2) :
    (if 1 ≤ a.length then error_at_pos_in_both a b true else 0)
      + (if 2 ≤ a.length then error_at_pos_in_both a b false else 0)
    = (a.zip b).countP (fun p => decide (p.1 ≠ p.2 ∨ p.1 = READ_ERR)) := by
  rcases a with _ | ⟨x1, _ | ⟨x2, _ | ⟨x3, ta⟩⟩⟩
  · rcases b with _ | ⟨y1, tb⟩
    · simp
    · simp at hlen
  · rcases b with _ | ⟨y1, _ | ⟨y2, tb⟩⟩
    · simp at hlen
    · by_cases h1 : x1 = y1 <;> by_cases h2 : x1 = READ_ERR <;>
        simp_all [error_at_pos_in_both, List.countP_cons, List.countP_nil]
    · simp at hlen
  · rcases b with _ | ⟨y1, _ | ⟨y2, _ | ⟨y3, tb⟩⟩⟩
    · simp at hlen
    · simp at hlen
    · by_cases h1 : x1 = y1 <;> by_cases h2 : x2 = y2 <;>
        by_cases h3 : x1 = READ_ERR <;> by_cases h4 : x2 = READ_ERR <;>
          simp_all [error_at_pos_in_both, List.countP_cons, List.countP_nil]
    · simp at hlen
  · simp at hle

/-- C3: `modified_levenshtein` coincides with the spec's specialized
overlap distance — positionwise scoring for equal lengths at most 2, a
maximal sentinel for unequal lengths when either side is shorter than 2,
and forced boundary substitutions (ambiguous base always an error) plus
full edit distance of the interiors otherwise — and the sentinel value
exceeds every realizable threshold, so such a candidate is rejected rather
than crashing. -/
theorem C3_modified_levenshtein_spec :
    (∀ a b : List Nat, modified_levenshtein a b = specOverlapDistance a b)
    ∧ (∀ (a b : List Nat) (k : Nat), a.length ≠ b.length →
        (a.length < 2 ∨ b.length < 2) → k < 2 ^ 32 - 1 →
        ¬ modified_levenshtein a b ≤ k) := by
  constructor
  · intro a b
    by_cases h1 : a.length = b.length ∧ a.length ≤ 2
    · rw [modified_levenshtein, specOverlapDistance, if_pos h1, if_pos h1]
      exact poswise_eq_countP a b h1.1 h1.2
    · by_cases h2 : a.length < 2 ∨ b.length < 2
      · have hne : a.length ≠ b.length := by
          intro he
          exact h1 ⟨he, by omega⟩
        rw [modified_levenshtein, specOverlapDistance, if_neg h1, if_neg h1,
          if_pos h2, if_pos ⟨hne, h2⟩]
      · have h3 : ¬ (a.length ≠ b.length ∧ (a.length < 2 ∨ b.length < 2)) := by
          intro hc
          exact h2 hc.2
        rw [modified_levenshtein, specOverlapDistance, if_neg h1, if_neg h1,
          if_neg h2, if_neg h3, specEndErr_eq_error_at_pos, specEndErr_eq_error_at_pos]
        omega
  · intro a b k hne h2 hk
    have hmax : modified_levenshtein a b = 2 ^ 32 - 1 := by
      have h1 : ¬ (a.length = b.length ∧ a.length ≤ 2) := by
        intro hc
        exact hne hc.1
      rw [modified_levenshtein, if_neg h1, if_pos h2]
    omega

/-- Witness for the sentinel half of C3 at a concrete input. -/
theorem C3_modified_levenshtein_spec_witness :
    ([] : List Nat).length ≠ [65, 66].length ∧ (([] : List Nat).length < 2 ∨ [65, 66].length < 2)
    ∧ (5 : Nat) < 2 ^ 32 - 1
    ∧ ¬ modified_levenshtein [] [65, 66] ≤ 5 := by
  refine ⟨by decide, by decide, by norm_num, ?_⟩
  exact C3_modified_levenshtein_spec.2 [] [65, 66] 5 (by decide) (by decide) (by norm_num)

theorem allows_insertion_iff (l : LastOperation) :
    l.allows_insertion = true
      ↔ l = LastOperation.Insertion ∨ l = LastOperation.Substitution := by
  cases l <;> decide

theorem allows_deletion_iff (l : LastOperation) :
    l.allows_deletion = true
      ↔ l = LastOperation.Deletion ∨ l = LastOperation.Substitution := by
  cases l <;> decide

theorem allows_candidates_iff (l : LastOperation) :
    l.allows_candidates = true
      ↔ l = LastOperation.Initial ∨ l = LastOperation.Substitution := by
  cases l <;> decide

/-- C2 counterexample: the claim asserts an Insertion step is never taken
immediately after another Insertion, but `allows_insertion` admits the
`Insertion` state: at this concrete recursion state, whose last operation
is an Insertion, the spawned children include another Insertion step. -/
theorem C2_counterexample_insertion_after_insertion :
    ∃ ch ∈ stepChildren
        { less := fun _ => 1, occ := fun _ _ => 1, resolve := fun _ => [] }
        { err_rate := 0, thresh := 0, reversals := false, inclusions := false,
          edit_distance := true, alphabet := [65] }
        1 67
        { errors := 0, p_i := 3, lastOp := LastOperation.Insertion, aML := 0,
          bML := 1, iv := { lower := 0, upper := 5 }, sym := some 65, debug := "" },
      ch.lastOp = LastOperation.Insertion := by
  decide

/-- C2 (amended): in edit-distance mode an Insertion step is taken only
when the alphabet symbol differs from the current query character, does not
consume a query position, and is taken only when the previous operation was
a Substitution or another Insertion — in particular never immediately
after a Deletion (or from the Initial state), though it IS permitted after
another Insertion. -/
theorem C2_insertion_guards (fm : FMEnv) (config : Config) (permitted : Int)
    (p_char : Nat) (args : CallArgs) :
    ∀ ch ∈ stepChildren fm config permitted p_char args,
      ch.lastOp = LastOperation.Insertion →
        (∃ a ∈ config.alphabet, ch.sym = some a ∧ p_char ≠ a)
        ∧ ch.p_i = args.p_i
        ∧ config.edit_distance = true
        ∧ (args.lastOp = LastOperation.Substitution ∨ args.lastOp = LastOperation.Insertion)
        ∧ args.lastOp ≠ LastOperation.Deletion ∧ args.lastOp ≠ LastOperation.Initial := by
  intro ch hch hins
  simp only [stepChildren, List.mem_append, List.mem_flatMap,
    List.mem_ite_nil_right, List.mem_singleton] at hch
  rcases hch with ⟨a, ha, hmem⟩ | hch
  · rcases hmem with hs | hi
    · obtain ⟨hle, rfl⟩ := hs
      simp at hins
    · obtain ⟨hc, rfl⟩ := hi
      have hops := (allows_insertion_iff args.lastOp).mp hc.2.2.1
      refine ⟨⟨a, ha, rfl, hc.2.2.2⟩, rfl, hc.2.1, by tauto, ?_, ?_⟩
      · rcases hops with h | h <;> simp [h]
      · rcases hops with h | h <;> simp [h]
  · obtain ⟨hc, rfl⟩ := hch
    simp at hins

/-- Witness for C2 at a concrete recursion state: the Insertion child
spawned for symbol 65 against query character 67. -/
theorem C2_insertion_guards_witness :
    let fm : FMEnv := { less := fun _ => 1, occ := fun _ _ => 1, resolve := fun _ => [] }
    let config : Config :=
      { err_rate := 0, thresh := 0, reversals := false,
        inclusions := false, edit_distance := true, alphabet := [65] }
    let args : CallArgs :=
      { errors := 0, p_i := 3, lastOp := LastOperation.Insertion,
        aML := 0, bML := 1, iv := { lower := 0, upper := 5 }, sym := some 65, debug := "" }
    let ch : CallArgs :=
      { errors := 1, p_i := 3, lastOp := LastOperation.Insertion,
        aML := 0, bML := 2, iv := { lower := 1, upper := 1 }, sym := some 65, debug := "a." }
    (ch ∈ stepChildren fm config 1 67 args ∧ ch.lastOp = LastOperation.Insertion)
    ∧ ((∃ a ∈ config.alphabet, ch.sym = some a ∧ 67 ≠ a)
        ∧ ch.p_i = args.p_i
        ∧ config.edit_distance = true
        ∧ (args.lastOp = LastOperation.Substitution ∨ args.lastOp = LastOperation.Insertion)
        ∧ args.lastOp ≠ LastOperation.Deletion ∧ args.lastOp ≠ LastOperation.Initial) := by
  intro fm config args ch
  exact ⟨⟨by decide, rfl⟩, C2_insertion_guards fm config 1 67 args ch (by decide) rfl⟩

/-- C8: in a Substitution step the error count is incremented for an
alphabet symbol unless it matches the query character at the current
position, and when the query character is the read-error placeholder the
error is forced even on an apparent match — the placeholder is never a
free match. -/
theorem C8_substitution_error_increment (fm : FMEnv) (config : Config)
    (permitted : Int) (p_char : Nat) (args : CallArgs) :
    ∀ ch ∈ stepChildren fm config permitted p_char args,
      ch.lastOp = LastOperation.Substitution →
        ∀ a : Nat, ch.sym = some a →
          (a ≠ p_char → ch.errors = args.errors + 1)
          ∧ (a = p_char ∧ p_char ≠ READ_ERR → ch.errors = args.errors)
          ∧ (p_char = READ_ERR → ch.errors = args.errors + 1) := by
  intro ch hch hsub
  simp only [stepChildren, List.mem_append, List.mem_flatMap,
    List.mem_ite_nil_right, List.mem_singleton] at hch
  rcases hch with ⟨a, ha, hmem⟩ | hch
  · rcases hmem with hs | hi
    · obtain ⟨hle, rfl⟩ := hs
      intro a' hsym
      simp only [Option.some.injEq] at hsym
      subst hsym
      refine ⟨?_, ?_, ?_⟩
      · intro hne
        show (if p_char = a ∧ a ≠ READ_ERR then args.errors else args.errors + 1)
          = args.errors + 1
        rw [if_neg]
        intro hc
        exact hne hc.1.symm
      · intro hmatch
        show (if p_char = a ∧ a ≠ READ_ERR then args.errors else args.errors + 1)
          = args.errors
        rw [if_pos ⟨hmatch.1.symm, by rw [hmatch.1]; exact hmatch.2⟩]
      · intro hN
        show (if p_char = a ∧ a ≠ READ_ERR then args.errors else args.errors + 1)
          = args.errors + 1
        rw [if_neg]
        intro hc
        exact hc.2 (hc.1 ▸ hN)
    · obtain ⟨hc, rfl⟩ := hi
      simp at hsub
  · obtain ⟨hc, rfl⟩ := hch
    simp at hsub

/-- Witness for C8 at a concrete recursion state: the Substitution child
spawned for symbol 65 against query character 67 (a mismatch). -/
theorem C8_substitution_error_increment_witness :
    let fm : FMEnv := { less := fun _ => 1, occ := fun _ _ => 1, resolve := fun _ => [] }
    let config : Config :=
      { err_rate := 0, thresh := 0, reversals := false,
        inclusions := false, edit_distance := true, alphabet := [65] }
    let args : CallArgs :=
      { errors := 0, p_i := 3, lastOp := LastOperation.Insertion,
        aML := 0, bML := 1, iv := { lower := 0, upper := 5 }, sym := some 65, debug := "" }
    let ch : CallArgs :=
      { errors := 1, p_i := 2, lastOp := LastOperation.Substitution,
        aML := 1, bML := 2, iv := { lower := 1, upper := 1 }, sym := some 65, debug := "a" }
    (ch ∈ stepChildren fm config 1 67 args ∧ ch.lastOp = LastOperation.Substitution
      ∧ ch.sym = some 65)
    ∧ ((65 ≠ 67 → ch.errors = args.errors + 1)
       ∧ (65 = 67 ∧ 67 ≠ READ_ERR → ch.errors = args.errors)
       ∧ (67 = READ_ERR → ch.errors = args.errors + 1)) := by
  intro fm config args ch
  exact ⟨⟨by decide, rfl, rfl⟩,
    C8_substitution_error_increment fm config 1 67 args ch (by decide) rfl 65 rfl⟩

/-- C7: the budget at a recursion step is the minimum of the hard cap
`floor(err_rate * pattern length)` (as installed by `generate_candidates`
into the `SearchConstants`) and the filter policy's progress bound, and no
spawned child exceeds it: a Substitution child's own error count is within
the budget, and Insertion/Deletion children are spawned only when the
current error count is strictly below it. -/
theorem C7_error_budget_pruning (fm : FMEnv) (filter_func : Int → Int → Int)
    (config : Config) (maps : Maps) (block_id_lookup : List Int)
    (pattern : List Nat) (id_a : Nat) (first_block_id patt_blocks p_i0 : Int)
    (p_char : Nat) (args : CallArgs) (cns : SearchConstants)
    (hcns : cns = mkSearchConstants pattern config maps block_id_lookup id_a
      first_block_id patt_blocks p_i0) :
    (permittedErrors cns filter_func args.p_i
      = min (Int.floor ((pattern.length : ℚ) * config.err_rate))
          (filter_func (completedBlocks cns args.p_i) cns.patt_blocks))
    ∧ ∀ ch ∈ stepChildren fm cns.config (permittedErrors cns filter_func args.p_i)
        p_char args,
        ch.errors ≤ permittedErrors cns filter_func args.p_i
        ∧ (ch.lastOp = LastOperation.Substitution →
            ch.errors ≤ permittedErrors cns filter_func args.p_i)
        ∧ ((ch.lastOp = LastOperation.Insertion ∨ ch.lastOp = LastOperation.Deletion) →
            args.errors < permittedErrors cns filter_func args.p_i
              ∧ ch.errors = args.errors + 1) := by
  constructor
  · rw [hcns]
    rfl
  · intro ch hch
    generalize hP : permittedErrors cns filter_func args.p_i = P at hch ⊢
    simp only [stepChildren, List.mem_append, List.mem_flatMap,
      List.mem_ite_nil_right, List.mem_singleton] at hch
    rcases hch with ⟨a, ha, hmem⟩ | hch
    · rcases hmem with hs | hi
      · obtain ⟨hle, rfl⟩ := hs
        refine ⟨hle, fun _ => hle, ?_⟩
        intro hop
        rcases hop with hop | hop <;> simp at hop
      · obtain ⟨hc, rfl⟩ := hi
        have h1 : args.errors < P := hc.1
        refine ⟨?_, fun hop => by simp at hop, fun _ => ⟨h1, rfl⟩⟩
        show args.errors + 1 ≤ P
        omega
    · obtain ⟨hc, rfl⟩ := hch
      have h1 : args.errors < P := hc.2.1
      refine ⟨?_, fun hop => by simp at hop, fun _ => ⟨h1, rfl⟩⟩
      show args.errors + 1 ≤ P
      omega

/-- Witness for C7 at a concrete filter state: pattern `AA`, error rate 0,
so the hard cap is 0 and the only spawned child is an error-free
Substitution. -/
theorem C7_error_budget_pruning_witness :
    let fm : FMEnv := { less := fun _ => 1, occ := fun _ _ => 1, resolve := fun _ => [] }
    let config : Config :=
      { err_rate := 0, thresh := 0, reversals := false,
        inclusions := false, edit_distance := false, alphabet := [65] }
    let maps : Maps := { text := [], id2name_vec := [], id2index := [], num_ids := 0 }
    let filter_func : Int → Int → Int := fun _ _ => 1
    let cns : SearchConstants := mkSearchConstants [65, 65] config maps [] 0 0 1 1
    let args : CallArgs :=
      { errors := 0, p_i := 0, lastOp := LastOperation.Initial,
        aML := 0, bML := 0, iv := { lower := 0, upper := 0 }, sym := none, debug := "" }
    let ch : CallArgs :=
      { errors := 0, p_i := -1, lastOp := LastOperation.Substitution,
        aML := 1, bML := 1, iv := { lower := 1, upper := 1 }, sym := some 65,
        debug := "A" }
    (permittedErrors cns filter_func args.p_i
      = min (Int.floor (([65, 65].length : ℚ) * config.err_rate))
          (filter_func (completedBlocks cns args.p_i) cns.patt_blocks))
    ∧ (ch ∈ stepChildren fm cns.config (permittedErrors cns filter_func args.p_i)
        65 args)
    ∧ (ch.errors ≤ permittedErrors cns filter_func args.p_i
       ∧ (ch.lastOp = LastOperation.Substitution →
           ch.errors ≤ permittedErrors cns filter_func args.p_i)
       ∧ ((ch.lastOp = LastOperation.Insertion ∨ ch.lastOp = LastOperation.Deletion) →
           args.errors < permittedErrors cns filter_func args.p_i
             ∧ ch.errors = args.errors + 1)) := by
  intro fm config maps filter_func cns args ch
  have hperm : permittedErrors cns filter_func args.p_i = 0 := by
    show min cns.hard_error_cap (filter_func (completedBlocks cns args.p_i) cns.patt_blocks) = 0
    have hcap : cns.hard_error_cap = 0 := by
      show Int.floor ((([65, 65] : List Nat).length : ℚ) * (0 : ℚ)) = 0
      norm_num
    rw [hcap]
    rfl
  have hmem : ch ∈ stepChildren fm cns.config (permittedErrors cns filter_func args.p_i)
      65 args := by
    rw [hperm]
    decide
  exact ⟨(C7_error_budget_pruning fm filter_func config maps [] [65, 65] 0 0 1 1
      65 args cns rfl).1,
    hmem,
    (C7_error_budget_pruning fm filter_func config maps [] [65, 65] 0 0 1 1
      65 args cns rfl).2 ch hmem⟩

theorem filterMap_range_one {α : Type} (f : Nat → Option α) (c : α)
    (h : f 0 = some c) : (List.range 1).filterMap f = [c] := by
  rw [show List.range 1 = [0] from rfl]
  simp [List.filterMap_cons, List.filterMap_nil, h]

/-- C5 (amended): the materializer's filtering rules.  A position
resolving to the query's own id yields no candidate; under edit distance,
when the query is its own companion, matches against the companion yield
no candidate; under edit distance the id-ordering discard fires when the
matched id is numerically SMALLER than the query id (`id_a > id_b` in
search.rs line 298) — matched ids greater than the query id are kept for
the symmetric task with roles swapped; and in Hamming mode no such
id-ordering discard occurs — a position with `id_b < id_a` (other gates
passing) still emits its candidate. -/
theorem C5_materializer_filters (cns : SearchConstants) (aML bML : Nat)
    (debug : String) (inclusion : Bool) (position0 position id_b : Nat)
    (hpos : position = if inclusion = false then position0 + 1 else position0)
    (hid : id_b = if inclusion = true
        then (cns.maps.findOccurrenceContaining position).1
        else cns.maps.idFor position) :
    (id_b = cns.id_a →
      candidatesForPosition cns aML bML debug inclusion position0 = some [])
    ∧ (cns.config.edit_distance = true
        ∧ cns.id_a = companion_id cns.id_a cns.config.reversals
        ∧ id_b = companion_id cns.id_a cns.config.reversals →
      candidatesForPosition cns aML bML debug inclusion position0 = some [])
    ∧ (cns.config.edit_distance = true ∧ cns.id_a > id_b →
      candidatesForPosition cns aML bML debug inclusion position0 = some [])
    ∧ (cns.config.edit_distance = false → inclusion = false → id_b ≠ cns.id_a →
        id_b < cns.id_a →
        aML + cns.blind_a_chars ≤ cns.pattern.length →
        aML + cns.blind_a_chars ≤ cns.maps.getLength id_b →
        ∃ c, candidatesForPosition cns aML bML debug inclusion position0 = some [c]
          ∧ c.overlap_b = c.overlap_a ∧ c.id_b = id_b) := by
  subst hpos
  subst hid
  refine ⟨?_, ?_, ?_, ?_⟩
  · intro h
    simp only [candidatesForPosition]
    rw [if_pos (Or.inl h)]
  · rintro ⟨hed, hself, hpartner⟩
    simp only [candidatesForPosition]
    rw [if_pos (Or.inr ⟨hed, hself⟩)]
  · rintro ⟨hed, hgt⟩
    simp only [candidatesForPosition]
    by_cases h1 : (if inclusion = true
          then (cns.maps.findOccurrenceContaining
            (if inclusion = false then position0 + 1 else position0)).1
          else cns.maps.idFor (if inclusion = false then position0 + 1 else position0))
        = cns.id_a
      ∨ (cns.config.edit_distance = true
          ∧ cns.id_a = companion_id cns.id_a cns.config.reversals)
    · rw [if_pos h1]
    · rw [if_neg h1, if_pos ⟨hed, hgt⟩]
  · intro hed hincl hne hlt hle1 hle2
    subst hincl
    norm_num at hne hlt hle2
    simp only [candidatesForPosition]
    norm_num [hed, minB2, maxB2, b2Loop]
    rw [if_neg hne, if_neg (show ¬ cns.pattern.length < aML + cns.blind_a_chars from by omega)]
    have h0 : ¬ ((cns.maps.getLength (cns.maps.idFor (position0 + 1)) : Int)
        < (aML : Int) + (cns.blind_a_chars : Int) + ((0 : Nat) : Int)) := by
      push_cast
      omega
    refine ⟨{ id_b := cns.maps.idFor (position0 + 1), overlap_a := aML + cns.blind_a_chars,
              overlap_b := aML + cns.blind_a_chars + 0,
              overhang_left_a := (cns.pattern.length : Int)
                - ((aML : Int) + (cns.blind_a_chars : Int)),
              debug_str := debug ++ " incl " ++ toString false
                ++ " blind " ++ toString cns.blind_a_chars },
      congrArg some (filterMap_range_one _ _ ?_), by norm_num, rfl⟩
    rw [if_neg h0]

/-- Witness for C5: a Hamming-mode query (id 1) matched against id 0 — even
though the matched id is smaller, a candidate is emitted. -/
theorem C5_materializer_filters_witness :
    let maps : Maps :=
      { text := [36, 65, 65, 36, 65, 65, 35], id2name_vec := [[110], [109]],
        id2index := [(0, 1), (1, 4)], num_ids := 2 }
    let config : Config :=
      { err_rate := 0, thresh := 0, reversals := false,
        inclusions := false, edit_distance := false, alphabet := [65] }
    let cns : SearchConstants :=
      { config := config, maps := maps, block_id_lookup := [], pattern := [65, 65],
        id_a := 1, blind_a_chars := 0, hard_error_cap := 0, max_b_len := 2,
        first_block_id := 0, patt_blocks := 1 }
    ((1 : Nat) = (if (false : Bool) = false then 0 + 1 else 0)
      ∧ (0 : Nat) = (if (false : Bool) = true
          then (cns.maps.findOccurrenceContaining 1).1 else cns.maps.idFor 1)
      ∧ cns.config.edit_distance = false ∧ (0 : Nat) < cns.id_a
      ∧ 2 + cns.blind_a_chars ≤ cns.pattern.length
      ∧ 2 + cns.blind_a_chars ≤ cns.maps.getLength 0)
    ∧ ∃ c, candidatesForPosition cns 2 2 "" false 0 = some [c]
        ∧ c.overlap_b = c.overlap_a ∧ c.id_b = 0 := by
  intro maps config cns
  refine ⟨⟨by decide, by decide, rfl, by decide, by decide, by decide⟩, ?_⟩
  exact (C5_materializer_filters cns 2 2 "" false 0 1 0 (by decide) (by decide)).2.2.2
    rfl rfl (by decide) (by decide) (by decide) (by decide)

theorem mem_b2Loop_iff (id_b a2 b_len : Nat) (a1 b1 : Int) (minb maxb : Nat)
    (dbg : String) (b2 : Nat) :
    (∃ c ∈ b2Loop id_b a2 b_len a1 b1 minb maxb dbg, c.overlap_b = b2)
      ↔ (minb ≤ b2 ∧ b2 ≤ maxb ∧ 0 ≤ (b_len : Int) - b1 - b2) := by
  unfold b2Loop
  constructor
  · rintro ⟨c, hc, hb⟩
    rw [List.mem_filterMap] at hc
    obtain ⟨k, hk, hfk⟩ := hc
    rw [List.mem_range] at hk
    by_cases hneg : ((b_len : Int) - b1 - ((minb + k : Nat) : Int)) < 0
    · rw [if_pos hneg] at hfk
      cases hfk
    · rw [if_neg hneg] at hfk
      injection hfk with hfk
      subst hfk
      simp only [] at hb
      subst hb
      refine ⟨by omega, by omega, ?_⟩
      push_cast at hneg ⊢
      omega
  · rintro ⟨h1, h2, h3⟩
    refine ⟨{ id_b := id_b, overlap_a := a2, overlap_b := b2,
              overhang_left_a := a1 - b1, debug_str := dbg }, ?_, rfl⟩
    rw [List.mem_filterMap]
    refine ⟨b2 - minb, ?_, ?_⟩
    · rw [List.mem_range]
      omega
    · rw [show minb + (b2 - minb) = b2 from by omega]
      rw [if_neg (by omega)]

theorem b2Loop_shape (id_b a2 b_len : Nat) (a1 b1 : Int) (minb maxb : Nat)
    (dbg : String) :
    ∀ c ∈ b2Loop id_b a2 b_len a1 b1 minb maxb dbg,
      c.overlap_a = a2 ∧ minb ≤ c.overlap_b ∧ c.overlap_b ≤ maxb ∧ c.id_b = id_b
      ∧ c = { id_b := id_b, overlap_a := a2, overlap_b := c.overlap_b,
              overhang_left_a := a1 - b1, debug_str := dbg } := by
  intro c hc
  unfold b2Loop at hc
  rw [List.mem_filterMap] at hc
  obtain ⟨k, hk, hfk⟩ := hc
  rw [List.mem_range] at hk
  by_cases hneg : ((b_len : Int) - b1 - ((minb + k : Nat) : Int)) < 0
  · rw [if_pos hneg] at hfk
    cases hfk
  · rw [if_neg hneg] at hfk
    injection hfk with hfk
    subst hfk
    refine ⟨rfl, ?_, ?_, rfl, rfl⟩
    · show minb ≤ minb + k
      omega
    · show minb + k ≤ maxb
      omega

set_option maxHeartbeats 1000000 in
theorem candidatesForPosition_cases (cns : SearchConstants) (aML bML : Nat)
    (debug : String) (inclusion : Bool) (position0 : Nat) :
    candidatesForPosition cns aML bML debug inclusion position0 = none
    ∨ candidatesForPosition cns aML bML debug inclusion position0 = some []
    ∨ ∃ id_b a1 b1, candidatesForPosition cns aML bML debug inclusion position0
        = some (b2Loop id_b (aML + cns.blind_a_chars) (cns.maps.getLength id_b)
            a1 b1 (minB2 cns (aML + cns.blind_a_chars) bML)
            (maxB2 cns (aML + cns.blind_a_chars) (cns.maps.getLength id_b))
            (debug ++ " incl " ++ toString inclusion
              ++ " blind " ++ toString cns.blind_a_chars)) := by
  simp only [candidatesForPosition]
  repeat' split
  all_goals first
    | exact Or.inl rfl
    | exact Or.inr (Or.inl rfl)
    | exact Or.inr (Or.inr ⟨_, _, _, rfl⟩)

theorem candidatesForPosition_shape_mem (cns : SearchConstants) (aML bML : Nat)
    (debug : String) (inclusion : Bool) (position0 : Nat) (l : List Candidate)
    (c : Candidate)
    (hl : candidatesForPosition cns aML bML debug inclusion position0 = some l)
    (hc : c ∈ l) :
    c.overlap_a = aML + cns.blind_a_chars
    ∧ minB2 cns (aML + cns.blind_a_chars) bML ≤ c.overlap_b
    ∧ c.overlap_b ≤ maxB2 cns (aML + cns.blind_a_chars) (cns.maps.getLength c.id_b) := by
  rcases candidatesForPosition_cases cns aML bML debug inclusion position0
    with h | h | ⟨idb, a1, b1, h⟩
  · rw [h] at hl
    cases hl
  · rw [h] at hl
    injection hl with hl
    subst hl
    cases hc
  · rw [h] at hl
    injection hl with hl
    subst hl
    have hs := b2Loop_shape _ _ _ _ _ _ _ _ c hc
    refine ⟨hs.1, hs.2.1, ?_⟩
    rw [hs.2.2.2.1]
    exact hs.2.2.1

theorem candidatesForPosition_eval_false (cns : SearchConstants) (aML bML : Nat)
    (debug : String) (position0 : Nat)
    (h1 : cns.maps.idFor (position0 + 1) ≠ cns.id_a)
    (h2 : ¬ (cns.config.edit_distance = true
      ∧ cns.id_a = companion_id cns.id_a cns.config.reversals))
    (h3 : ¬ (cns.config.edit_distance = true
      ∧ cns.maps.idFor (position0 + 1) < cns.id_a))
    (h4 : aML + cns.blind_a_chars ≤ cns.pattern.length) :
    candidatesForPosition cns aML bML debug false position0
      = some (b2Loop (cns.maps.idFor (position0 + 1)) (aML + cns.blind_a_chars)
          (cns.maps.getLength (cns.maps.idFor (position0 + 1)))
          ((cns.pattern.length : Int) - ((aML : Int) + (cns.blind_a_chars : Int))) 0
          (minB2 cns (aML + cns.blind_a_chars) bML)
          (maxB2 cns (aML + cns.blind_a_chars)
            (cns.maps.getLength (cns.maps.idFor (position0 + 1))))
          (debug ++ " incl " ++ toString false
            ++ " blind " ++ toString cns.blind_a_chars)) := by
  simp only [candidatesForPosition]
  norm_num
  have hA : ¬ (cns.maps.idFor (position0 + 1) = cns.id_a
      ∨ cns.config.edit_distance = true
        ∧ cns.id_a = companion_id cns.id_a cns.config.reversals) := by
    rintro (h | h)
    · exact h1 h
    · exact h2 h
  rw [if_neg hA, if_neg h3,
    if_neg (show ¬ cns.pattern.length < aML + cns.blind_a_chars from by omega)]

theorem candidatesForPosition_eval_true (cns : SearchConstants) (aML bML : Nat)
    (debug : String) (position0 : Nat)
    (h1 : (cns.maps.findOccurrenceContaining position0).1 ≠ cns.id_a)
    (h2 : ¬ (cns.config.edit_distance = true
      ∧ cns.id_a = companion_id cns.id_a cns.config.reversals))
    (h3 : ¬ (cns.config.edit_distance = true
      ∧ (cns.maps.findOccurrenceContaining position0).1 < cns.id_a))
    (h4 : aML + cns.blind_a_chars = cns.pattern.length)
    (h5 : (cns.maps.findOccurrenceContaining position0).2 ≤ position0) :
    candidatesForPosition cns aML bML debug true position0
      = some (b2Loop (cns.maps.findOccurrenceContaining position0).1
          (aML + cns.blind_a_chars)
          (cns.maps.getLength (cns.maps.findOccurrenceContaining position0).1) 0
          ((position0 : Int) - ((cns.maps.findOccurrenceContaining position0).2 : Int))
          (minB2 cns (aML + cns.blind_a_chars) bML)
          (maxB2 cns (aML + cns.blind_a_chars)
            (cns.maps.getLength (cns.maps.findOccurrenceContaining position0).1))
          (debug ++ " incl " ++ toString true
            ++ " blind " ++ toString cns.blind_a_chars)) := by
  simp only [candidatesForPosition]
  norm_num
  have hA : ¬ ((cns.maps.findOccurrenceContaining position0).1 = cns.id_a
      ∨ cns.config.edit_distance = true
        ∧ cns.id_a = companion_id cns.id_a cns.config.reversals) := by
    rintro (h | h)
    · exact h1 h
    · exact h2 h
  rw [if_neg hA, if_neg h3,
    if_pos (show ((cns.pattern.length : Int) - ((aML : Int) + (cns.blind_a_chars : Int))) = 0
      from by omega),
    if_neg (show ¬ position0 < (cns.maps.findOccurrenceContaining position0).2 from by omega)]

/-- C5 counterexample: the claim states that in edit-distance mode a
position whose matched id is numerically GREATER than the query id
produces no Candidate.  Here, in edit-distance mode with every other gate
passing, position 6 resolves to matched id 2 > query id 0 and a Candidate
IS produced: the discard at search.rs line 298 fires for `id_a > id_b`,
i.e. for matched ids numerically smaller than the query id. -/
theorem C5_counterexample_greater_matched_id_kept :
    let maps : Maps :=
      { text := [36, 65, 65, 36, 65, 65, 36, 65, 65, 36, 65, 65, 35],
        id2name_vec := [[110], [110], [109], [109]],
        id2index := [(0, 1), (1, 4), (2, 7), (3, 10)], num_ids := 4 }
    let config : Config :=
      { err_rate := 0, thresh := 0, reversals := true,
        inclusions := false, edit_distance := true, alphabet := [65] }
    let cns : SearchConstants :=
      { config := config, maps := maps, block_id_lookup := [], pattern := [65, 65],
        id_a := 0, blind_a_chars := 0, hard_error_cap := 0, max_b_len := 2,
        first_block_id := 0, patt_blocks := 1 }
    cns.config.edit_distance = true
    ∧ cns.maps.idFor (6 + 1) = 2
    ∧ 2 > cns.id_a
    ∧ candidatesForPosition cns 2 2 "" false 6
        = some [{ id_b := 2, overlap_a := 2, overlap_b := 2,
                  overhang_left_a := 0, debug_str := " incl false blind 0" }] := by
  intro maps config cns
  refine ⟨rfl, by decide, by decide, ?_⟩
  have hid : cns.maps.idFor (6 + 1) = 2 := by decide
  have hlen : cns.maps.getLength 2 = 2 := by decide
  rw [candidatesForPosition_eval_false cns 2 2 "" 6 (by decide) (by decide)
    (by decide) (by decide)]
  rw [hid, hlen]
  norm_num [b2Loop, minB2, maxB2]
  decide

/-- C6: length reconciliation at materialization.  In Hamming mode every
emitted candidate has matched-side overlap equal to the query-side overlap
`a2 = a_match_len + blind_a_chars`.  In edit-distance mode (all id filters
passing) the emitted list contains a candidate of matched-side length `b2`
exactly for the integers `b2` with
`max(ceil(a2*(1-err)), b_match_len) ≤ b2 ≤ min(floor(a2/(1-err)), b_len)`
whose matched-side remainder is non-negative, one distinct candidate per
such `b2`. -/
theorem C6_length_reconciliation (cns : SearchConstants) (aML bML : Nat)
    (debug : String) (inclusion : Bool) (position0 position id_b index_b : Nat)
    (hpos : position = if inclusion = false then position0 + 1 else position0)
    (hid : id_b = if inclusion = true
        then (cns.maps.findOccurrenceContaining position).1
        else cns.maps.idFor position)
    (hidx : index_b = if inclusion = true
        then (cns.maps.findOccurrenceContaining position).2 else position) :
    (cns.config.edit_distance = false →
      ∀ l, candidatesForPosition cns aML bML debug inclusion position0 = some l →
        ∀ c ∈ l, c.overlap_b = c.overlap_a ∧ c.overlap_a = aML + cns.blind_a_chars)
    ∧ (cns.config.edit_distance = true →
        id_b ≠ cns.id_a →
        cns.id_a ≠ companion_id cns.id_a cns.config.reversals →
        ¬ cns.id_a > id_b →
        (inclusion = false → aML + cns.blind_a_chars ≤ cns.pattern.length) →
        (inclusion = true → index_b ≤ position) →
        (inclusion = true → aML + cns.blind_a_chars = cns.pattern.length) →
        ∃ l, candidatesForPosition cns aML bML debug inclusion position0 = some l
          ∧ (∀ b2 : Nat, (∃ c ∈ l, c.overlap_b = b2) ↔
              (max (Int.toNat (Int.ceil (((aML + cns.blind_a_chars : Nat) : ℚ)
                  * (1 - cns.config.err_rate)))) bML ≤ b2
                ∧ b2 ≤ min (Int.toNat (Int.floor (((aML + cns.blind_a_chars : Nat) : ℚ)
                    / (1 - cns.config.err_rate)))) (cns.maps.getLength id_b)
                ∧ 0 ≤ (cns.maps.getLength id_b : Int)
                    - (if inclusion = true then (position : Int) - (index_b : Int) else 0)
                    - (b2 : Int)))
          ∧ (∀ c ∈ l, c.overlap_a = aML + cns.blind_a_chars)
          ∧ (∀ c ∈ l, ∀ c' ∈ l, c.overlap_b = c'.overlap_b → c = c')) := by
  subst hpos
  subst hid
  subst hidx
  constructor
  · intro hed l hl c hc
    have hs := candidatesForPosition_shape_mem cns aML bML debug inclusion position0 l c hl hc
    have hmin : minB2 cns (aML + cns.blind_a_chars) bML = aML + cns.blind_a_chars := by
      unfold minB2
      rw [if_pos hed]
    have hmax : maxB2 cns (aML + cns.blind_a_chars) (cns.maps.getLength c.id_b)
        = aML + cns.blind_a_chars := by
      unfold maxB2
      rw [if_pos hed]
    have h1 := hs.2.1
    have h2 := hs.2.2
    rw [hmin] at h1
    rw [hmax] at h2
    exact ⟨by omega, hs.1⟩
  · intro hed hne hself hngt hlen1 hidx2 hlen2
    cases inclusion
    case false =>
      norm_num at hne hngt ⊢
      rw [candidatesForPosition_eval_false cns aML bML debug position0 hne
        (fun h => hself h.2) (fun h => Nat.not_lt.mpr hngt h.2) (hlen1 rfl)]
      refine ⟨_, rfl, ?_, ?_, ?_⟩
      · intro b2
        rw [mem_b2Loop_iff]
        simp only [minB2, maxB2, hed]
        norm_num
      · intro c hc
        exact (b2Loop_shape _ _ _ _ _ _ _ _ c hc).1
      · intro c hc c' hc' hbb
        have s1 := (b2Loop_shape _ _ _ _ _ _ _ _ c hc).2.2.2.2
        have s2 := (b2Loop_shape _ _ _ _ _ _ _ _ c' hc').2.2.2.2
        rw [s1, s2, hbb]
    case true =>
      norm_num at hne hngt hidx2 hlen2 ⊢
      rw [candidatesForPosition_eval_true cns aML bML debug position0 hne
        (fun h => hself h.2) (fun h => Nat.not_lt.mpr hngt h.2) hlen2 hidx2]
      refine ⟨_, rfl, ?_, ?_, ?_⟩
      · intro b2
        rw [mem_b2Loop_iff]
        simp only [minB2, maxB2, hed]
        norm_num
      · intro c hc
        exact (b2Loop_shape _ _ _ _ _ _ _ _ c hc).1
      · intro c hc c' hc' hbb
        have s1 := (b2Loop_shape _ _ _ _ _ _ _ _ c hc).2.2.2.2
        have s2 := (b2Loop_shape _ _ _ _ _ _ _ _ c' hc').2.2.2.2
        rw [s1, s2, hbb]

/-- Witness for C6: an edit-distance query (id 0, reversal mode) against
matched id 2; the fan-out interval for the matched-side length is
characterized exactly. -/
theorem C6_length_reconciliation_witness :
    let maps : Maps :=
      { text := [36, 65, 65, 36, 65, 65, 36, 65, 65, 36, 65, 65, 35],
        id2name_vec := [[110], [110], [109], [109]],
        id2index := [(0, 1), (1, 4), (2, 7), (3, 10)], num_ids := 4 }
    let config : Config :=
      { err_rate := 0, thresh := 0, reversals := true,
        inclusions := false, edit_distance := true, alphabet := [65] }
    let cns : SearchConstants :=
      { config := config, maps := maps, block_id_lookup := [], pattern := [65, 65],
        id_a := 0, blind_a_chars := 0, hard_error_cap := 0, max_b_len := 2,
        first_block_id := 0, patt_blocks := 1 }
    ∃ l, candidatesForPosition cns 2 2 "" false 6 = some l
      ∧ (∀ b2 : Nat, (∃ c ∈ l, c.overlap_b = b2) ↔
          (max (Int.toNat (Int.ceil (((2 + cns.blind_a_chars : Nat) : ℚ)
              * (1 - cns.config.err_rate)))) 2 ≤ b2
            ∧ b2 ≤ min (Int.toNat (Int.floor (((2 + cns.blind_a_chars : Nat) : ℚ)
                / (1 - cns.config.err_rate)))) (cns.maps.getLength 2)
            ∧ 0 ≤ (cns.maps.getLength 2 : Int)
                - (if (false : Bool) = true then ((7 : Nat) : Int) - ((7 : Nat) : Int) else 0)
                - (b2 : Int)))
      ∧ (∀ c ∈ l, c.overlap_a = 2 + cns.blind_a_chars)
      ∧ (∀ c ∈ l, ∀ c' ∈ l, c.overlap_b = c'.overlap_b → c = c') := by
  intro maps config cns
  exact (C6_length_reconciliation cns 2 2 "" false 6 7 2 7
      (by decide) (by decide) (by decide)).2
    rfl (by decide) (by decide) (by decide) (by decide) (by decide) (by decide)

/-- C4: `verify` accepts exactly when the computed error count is at most
`floor(err_rate * max(overlap_a, overlap_b))`: at the boundary the
candidate is accepted, one error above it is rejected (the entry assertion
`a3 = 0` and the Hamming equal-length assertion are hypotheses). -/
theorem C4_verify_threshold (id_a : Nat) (c : Candidate) (config : Config)
    (maps : Maps)
    (h3 : c.a3 (maps.getLength id_a) = 0)
    (hlen : config.edit_distance = false →
      (((maps.getString id_a).drop c.a1).take c.a2).length
        = (((maps.getString c.id_b).drop c.b1).take c.b2).length) :
    ((verify id_a c config maps).isSome ↔
      verifyErrors id_a c config maps
        ≤ (Int.floor (config.err_rate * (max c.overlap_a c.overlap_b : ℚ))).toNat)
    ∧ (verifyErrors id_a c config maps
        = (Int.floor (config.err_rate * (max c.overlap_a c.overlap_b : ℚ))).toNat →
      (verify id_a c config maps).isSome)
    ∧ (verifyErrors id_a c config maps
        = (Int.floor (config.err_rate * (max c.overlap_a c.overlap_b : ℚ))).toNat + 1 →
      verify id_a c config maps = none) := by
  simp only [verify]
  rw [if_neg (show ¬ (c.a3 (maps.getLength id_a) ≠ 0) from by simp [h3])]
  rw [if_neg (show ¬ (config.edit_distance = false
      ∧ (((maps.getString id_a).drop c.a1).take c.a2).length
        ≠ (((maps.getString c.id_b).drop c.b1).take c.b2).length)
    from fun h => h.2 (hlen h.1))]
  refine ⟨?_, ?_, ?_⟩
  · by_cases h : verifyErrors id_a c config maps
        ≤ (Int.floor (config.err_rate * (max c.overlap_a c.overlap_b : ℚ))).toNat
    · rw [if_pos h]
      simp [h]
    · rw [if_neg h]
      simp [h]
  · intro h
    rw [if_pos (le_of_eq h)]
    rfl
  · intro h
    rw [if_neg (by omega)]

/-- Witness for C4 at a concrete accepted candidate: two identical
sequences `AA`, error rate 0, zero errors. -/
theorem C4_verify_threshold_witness :
    let maps : Maps :=
      { text := [36, 65, 65, 36, 65, 65, 35], id2name_vec := [[110], [109]],
        id2index := [(0, 1), (1, 4)], num_ids := 2 }
    let config : Config :=
      { err_rate := 0, thresh := 0, reversals := false,
        inclusions := false, edit_distance := true, alphabet := [65] }
    let c : Candidate :=
      { id_b := 1, overlap_a := 2, overlap_b := 2, overhang_left_a := 0, debug_str := "" }
    c.a3 (maps.getLength 0) = 0
    ∧ ((verify 0 c config maps).isSome ↔
        verifyErrors 0 c config maps
          ≤ (Int.floor (config.err_rate * (max c.overlap_a c.overlap_b : ℚ))).toNat) := by
  intro maps config c
  refine ⟨by decide, (C4_verify_threshold 0 c config maps (by decide) ?_).1⟩
  intro h
  exact absurd h (by decide)

theorem nameLe_total (a b : List Nat) : nameLe a b = true ∨ nameLe b a = true := by
  induction a generalizing b with
  | nil => exact Or.inl rfl
  | cons x xs ih =>
    cases b with
    | nil => exact Or.inr rfl
    | cons y ys =>
      by_cases h1 : x < y
      · left
        simp [nameLe, h1]
      · by_cases h2 : y < x
        · right
          simp [nameLe, h2]
        · have hxy : x = y := by omega
          subst hxy
          rcases ih ys with h | h
          · left
            simp [nameLe, h1, h]
          · right
            simp [nameLe, h1, h]

/-- C9: every Solution produced by `translate_solution_to_external` has the
display name of `id_a` lexicographically not greater than that of `id_b`,
and with reversal mode active `id_a` never denotes a reverse-complement
entry (it is even), provided companion entries share their display name
(as prepare.rs guarantees). -/
theorem C9_canonical_order_and_parity (sol : Solution) (config : Config)
    (maps : Maps)
    (hname : config.reversals = true →
      maps.getNameFor (companion_id sol.id_a true) = maps.getNameFor sol.id_a
      ∧ maps.getNameFor (companion_id sol.id_b true) = maps.getNameFor sol.id_b) :
    nameLe (maps.getNameFor (translate_solution_to_external sol config maps).id_a)
        (maps.getNameFor (translate_solution_to_external sol config maps).id_b) = true
    ∧ (config.reversals = true →
        (translate_solution_to_external sol config maps).id_a % 2 = 0) := by
  set s1 := if id_order_ok sol maps = false then sol.v_flip else sol with hs1
  set s2 := if config.reversals = true ∧ for_reversed_string s1.id_a = true
    then s1.h_flip config.reversals else s1 with hs2
  have h1 : id_order_ok s1 maps = true := by
    rw [hs1]
    by_cases ho : id_order_ok sol maps = false
    · rw [if_pos ho]
      unfold id_order_ok at ho ⊢
      rcases nameLe_total (maps.getNameFor sol.id_a) (maps.getNameFor sol.id_b)
        with h | h
      · rw [h] at ho
        cases ho
      · exact h
    · rw [if_neg ho]
      cases hb : id_order_ok sol maps
      · exact absurd hb ho
      · rfl
  have hids : (s1.id_a = sol.id_a ∧ s1.id_b = sol.id_b)
      ∨ (s1.id_a = sol.id_b ∧ s1.id_b = sol.id_a) := by
    rw [hs1]
    by_cases ho : id_order_ok sol maps = false
    · right
      rw [if_pos ho]
      exact ⟨rfl, rfl⟩
    · left
      rw [if_neg ho]
      exact ⟨rfl, rfl⟩
  have h2order : id_order_ok s2 maps = true := by
    rw [hs2]
    by_cases hcond : config.reversals = true ∧ for_reversed_string s1.id_a = true
    · rw [if_pos hcond]
      obtain ⟨hrev, hforw⟩ := hcond
      unfold id_order_ok at h1 ⊢
      have hna : maps.getNameFor (companion_id s1.id_a config.reversals)
          = maps.getNameFor s1.id_a := by
        rw [hrev]
        rcases hids with ⟨ha, _⟩ | ⟨ha, _⟩ <;> rw [ha]
        · exact (hname hrev).1
        · exact (hname hrev).2
      have hnb : maps.getNameFor (companion_id s1.id_b config.reversals)
          = maps.getNameFor s1.id_b := by
        rw [hrev]
        rcases hids with ⟨_, hb⟩ | ⟨_, hb⟩ <;> rw [hb]
        · exact (hname hrev).2
        · exact (hname hrev).1
      show nameLe (maps.getNameFor (companion_id s1.id_a config.reversals))
        (maps.getNameFor (companion_id s1.id_b config.reversals)) = true
      rw [hna, hnb]
      exact h1
    · rw [if_neg hcond]
      exact h1
  have h2par : config.reversals = true → s2.id_a % 2 = 0 := by
    intro hrev
    rw [hs2]
    by_cases hcond : config.reversals = true ∧ for_reversed_string s1.id_a = true
    · rw [if_pos hcond]
      show companion_id s1.id_a config.reversals % 2 = 0
      have hodd : s1.id_a % 2 = 1 := by
        have h := hcond.2
        simp [for_reversed_string] at h
        exact h
      unfold companion_id
      rw [if_pos hrev, if_neg (by omega)]
      omega
    · rw [if_neg hcond]
      have h : for_reversed_string s1.id_a ≠ true := fun h => hcond ⟨hrev, h⟩
      simp [for_reversed_string] at h
      omega
  have htr : translate_solution_to_external sol config maps
      = s2.mirror_horizontally := by
    simp only [translate_solution_to_external, ← hs1, ← hs2]
  rw [htr]
  exact ⟨h2order, h2par⟩

/-- Witness for C9: reversal mode, `sol.id_a = 3` (a reverse-complement
entry) against `sol.id_b = 0`; the canonicalized solution is name-ordered
with an even first id. -/
theorem C9_canonical_order_and_parity_witness :
    let maps : Maps :=
      { text := [], id2name_vec := [[110], [110], [109], [109]],
        id2index := [], num_ids := 4 }
    let config : Config :=
      { err_rate := 0, thresh := 0, reversals := true,
        inclusions := false, edit_distance := true, alphabet := [] }
    let sol : Solution :=
      { id_a := 3, id_b := 0, orientation := Orient.Normal, overhang_left_a := 0,
        overhang_right_b := 0, overlap_a := 1, overlap_b := 1, errors := 0 }
    (maps.getNameFor (companion_id 3 true) = maps.getNameFor 3
      ∧ maps.getNameFor (companion_id 0 true) = maps.getNameFor 0)
    ∧ nameLe (maps.getNameFor (translate_solution_to_external sol config maps).id_a)
        (maps.getNameFor (translate_solution_to_external sol config maps).id_b) = true
    ∧ (config.reversals = true →
        (translate_solution_to_external sol config maps).id_a % 2 = 0) := by
  intro maps config sol
  refine ⟨⟨by decide, by decide⟩, ?_, ?_⟩
  · exact (C9_canonical_order_and_parity sol config maps
      (fun _ => ⟨by decide, by decide⟩)).1
  · exact (C9_canonical_order_and_parity sol config maps
      (fun _ => ⟨by decide, by decide⟩)).2

theorem findOcc_le (m : Maps) (index : Nat) (h : 1 ≤ index) :
    (m.findOccurrenceContaining index).2 ≤ index := by
  unfold Maps.findOccurrenceContaining
  have H : ∀ (l : List (Nat × Nat)) (best : Nat × Nat), best.2 ≤ index →
      (l.foldl (fun best p => if p.2 ≤ index ∧ p.2 > best.2 then p else best) best).2
        ≤ index := by
    intro l
    induction l with
    | nil => exact fun best hb => hb
    | cons p rest ih =>
      intro best hb
      simp only [List.foldl_cons]
      by_cases hc : p.2 ≤ index ∧ p.2 > best.2
      · rw [if_pos hc]
        exact ih _ hc.1
      · rw [if_neg hc]
        exact ih _ hb
  exact H _ _ h

theorem optAppend_some {x y : Option (List Candidate)} {lx ly : List Candidate}
    (hx : x = some lx) (hy : y = some ly) : optAppend x y = some (lx ++ ly) := by
  rw [hx, hy]
  rfl

theorem candidatesForPosition_false_geom (cns : SearchConstants) (aML bML : Nat)
    (dbg : String) (p : Nat)
    (hle : aML + cns.blind_a_chars ≤ cns.pattern.length) :
    ∃ lp, candidatesForPosition cns aML bML dbg false p = some lp
      ∧ ∀ c ∈ lp, c.a3 cns.pattern.length = 0 := by
  simp only [candidatesForPosition]
  norm_num
  by_cases hA : cns.maps.idFor (p + 1) = cns.id_a
      ∨ cns.config.edit_distance = true
        ∧ cns.id_a = companion_id cns.id_a cns.config.reversals
  · rw [if_pos hA]
    exact ⟨[], rfl, by simp⟩
  · rw [if_neg hA]
    by_cases hB : cns.config.edit_distance = true
        ∧ cns.maps.idFor (p + 1) < cns.id_a
    · rw [if_pos hB]
      exact ⟨[], rfl, by simp⟩
    · rw [if_neg hB,
        if_neg (show ¬ cns.pattern.length < aML + cns.blind_a_chars from by omega)]
      refine ⟨_, rfl, ?_⟩
      intro c hc
      have hs := (b2Loop_shape _ _ _ _ _ _ _ _ c hc).2.2.2.2
      rw [hs]
      simp only [Candidate.a3, Candidate.a1]
      omega

theorem candidatesForPosition_true_geom (cns : SearchConstants) (aML bML : Nat)
    (dbg : String) (p : Nat) (hp1 : 1 ≤ p)
    (heq : aML + cns.blind_a_chars = cns.pattern.length) :
    ∃ lp, candidatesForPosition cns aML bML dbg true p = some lp
      ∧ ∀ c ∈ lp, c.a3 cns.pattern.length = 0 := by
  simp only [candidatesForPosition]
  norm_num
  by_cases hA : (cns.maps.findOccurrenceContaining p).1 = cns.id_a
      ∨ cns.config.edit_distance = true
        ∧ cns.id_a = companion_id cns.id_a cns.config.reversals
  · rw [if_pos hA]
    exact ⟨[], rfl, by simp⟩
  · rw [if_neg hA]
    by_cases hB : cns.config.edit_distance = true
        ∧ (cns.maps.findOccurrenceContaining p).1 < cns.id_a
    · rw [if_pos hB]
      exact ⟨[], rfl, by simp⟩
    · rw [if_neg hB,
        if_pos (show ((cns.pattern.length : Int)
          - ((aML : Int) + (cns.blind_a_chars : Int))) = 0 from by omega),
        if_neg (show ¬ p < (cns.maps.findOccurrenceContaining p).2 from by
          have := findOcc_le cns.maps p hp1
          omega)]
      refine ⟨_, rfl, ?_⟩
      intro c hc
      have hs := (b2Loop_shape _ _ _ _ _ _ _ _ c hc).2.2.2.2
      rw [hs]
      simp only [Candidate.a3, Candidate.a1]
      have hb1 : (0 : Int) ≤ (p : Int) - ((cns.maps.findOccurrenceContaining p).2 : Int) := by
        have := findOcc_le cns.maps p hp1
        omega
      omega

theorem addCandidatesFromPositions_geom (cns : SearchConstants) (aML bML : Nat)
    (dbg : String) (incl : Bool) (positions : List Nat)
    (hper : ∀ p ∈ positions,
      ∃ lp, candidatesForPosition cns aML bML dbg incl p = some lp
        ∧ ∀ c ∈ lp, c.a3 cns.pattern.length = 0) :
    ∃ l, addCandidatesFromPositions positions cns aML bML dbg incl = some l
      ∧ ∀ c ∈ l, c.a3 cns.pattern.length = 0 := by
  unfold addCandidatesFromPositions
  have H : ∀ (ps : List Nat) (acc : List Candidate),
      (∀ c ∈ acc, c.a3 cns.pattern.length = 0) →
      (∀ p ∈ ps, ∃ lp, candidatesForPosition cns aML bML dbg incl p = some lp
        ∧ ∀ c ∈ lp, c.a3 cns.pattern.length = 0) →
      ∃ l, ps.foldl
          (fun acc p => optAppend acc (candidatesForPosition cns aML bML dbg incl p))
          (some acc) = some l
        ∧ ∀ c ∈ l, c.a3 cns.pattern.length = 0 := by
    intro ps
    induction ps with
    | nil => exact fun acc hacc _ => ⟨acc, rfl, hacc⟩
    | cons p rest ihp =>
      intro acc hacc hper
      obtain ⟨lp, hlp, hplp⟩ := hper p (List.mem_cons_self p rest)
      simp only [List.foldl_cons]
      rw [optAppend_some rfl hlp]
      exact ihp (acc ++ lp)
        (fun c hc => (List.mem_append.mp hc).elim (hacc c) (hplp c))
        (fun q hq => hper q (List.mem_cons_of_mem p hq))
  exact H positions [] (by simp) hper

theorem stepChildren_inv (fm : FMEnv) (config : Config) (permitted : Int)
    (p_char : Nat) (args : CallArgs) :
    ∀ ch ∈ stepChildren fm config permitted p_char args,
      (args.p_i - 1 ≤ ch.p_i ∧ ch.p_i ≤ args.p_i)
      ∧ ch.p_i + 1 + (ch.aML : Int) = args.p_i + 1 + (args.aML : Int) := by
  intro ch hch
  simp only [stepChildren, List.mem_append, List.mem_flatMap,
    List.mem_ite_nil_right, List.mem_singleton] at hch
  rcases hch with ⟨a, ha, hmem⟩ | hch
  · rcases hmem with hs | hi
    · obtain ⟨hle, rfl⟩ := hs
      refine ⟨⟨?_, ?_⟩, ?_⟩
      · show args.p_i - 1 ≤ args.p_i - 1
        omega
      · show args.p_i - 1 ≤ args.p_i
        omega
      · show args.p_i - 1 + 1 + ((args.aML + 1 : Nat) : Int) = args.p_i + 1 + (args.aML : Int)
        push_cast
        omega
    · obtain ⟨hc, rfl⟩ := hi
      refine ⟨⟨?_, ?_⟩, rfl⟩
      · show args.p_i - 1 ≤ args.p_i
        omega
      · show args.p_i ≤ args.p_i
        omega
  · obtain ⟨hc, rfl⟩ := hch
    refine ⟨⟨?_, ?_⟩, ?_⟩
    · show args.p_i - 1 ≤ args.p_i - 1
      omega
    · show args.p_i - 1 ≤ args.p_i
      omega
    · show args.p_i - 1 + 1 + ((args.aML + 1 : Nat) : Int) = args.p_i + 1 + (args.aML : Int)
      push_cast
      omega

theorem recurse_geom (fm : FMEnv) (ff : Int → Int → Int)
    (cc : Int → Int → Int → Int → Bool) (cns : SearchConstants)
    (hres : ∀ iv : Intv, ∀ p ∈ fm.resolve iv, 1 ≤ p) :
    ∀ (fuel : Nat) (args : CallArgs), -1 ≤ args.p_i →
      args.p_i + 1 + (args.aML : Int) + (cns.blind_a_chars : Int)
        = (cns.pattern.length : Int) →
      ∃ l, recurse fm ff cc cns fuel args = some l
        ∧ ∀ c ∈ l, c.a3 cns.pattern.length = 0 := by
  intro fuel
  induction fuel with
  | zero =>
    intro args hp hinv
    exact ⟨[], by simp only [recurse], by simp⟩
  | succ n ih =>
    intro args hp hinv
    have hle : args.aML + cns.blind_a_chars ≤ cns.pattern.length := by omega
    simp only [recurse]
    split
    · exact ⟨[], rfl, by simp⟩
    split
    case isTrue hfin =>
      have heq : args.aML + cns.blind_a_chars = cns.pattern.length := by omega
      split
      case isTrue hincl =>
        obtain ⟨l1, h1, hp1⟩ : ∃ l1, (if cc ((max args.aML args.bML + 1 : Nat) : Int)
              (completedBlocks cns args.p_i) cns.config.thresh args.errors = true
              ∧ args.lastOp.allows_candidates = true then
            addCandidatesFromPositions (fm.resolve (dollarInterval fm args.iv)) cns
              args.aML args.bML args.debug false
          else some []) = some l1 ∧ ∀ c ∈ l1, c.a3 cns.pattern.length = 0 := by
          split
          · exact addCandidatesFromPositions_geom cns args.aML args.bML args.debug false _
              (fun p hp => candidatesForPosition_false_geom cns args.aML args.bML
                args.debug p hle)
          · exact ⟨[], rfl, by simp⟩
        obtain ⟨l2, h2, hp2⟩ := addCandidatesFromPositions_geom cns args.aML args.bML
          args.debug true (fm.resolve { lower := args.iv.lower, upper := args.iv.upper + 1 })
          (fun p hp => candidatesForPosition_true_geom cns args.aML args.bML args.debug p
            (hres _ p hp) heq)
        exact ⟨l1 ++ l2, optAppend_some h1 h2,
          fun c hc => (List.mem_append.mp hc).elim (hp1 c) (hp2 c)⟩
      case isFalse hincl =>
        split
        · exact addCandidatesFromPositions_geom cns args.aML args.bML args.debug false _
            (fun p hp => candidatesForPosition_false_geom cns args.aML args.bML
              args.debug p hle)
        · exact ⟨[], rfl, by simp⟩
    case isFalse hfin =>
      split
      case h_1 hnone =>
        exfalso
        have hlen := List.get?_eq_none.mp hnone
        omega
      case h_2 p_char hsome =>
        have hch := stepChildren_inv fm cns.config
          (permittedErrors cns ff args.p_i) p_char args
        have hGen : ∀ (L : List CallArgs),
            (∀ ch ∈ L, (args.p_i - 1 ≤ ch.p_i ∧ ch.p_i ≤ args.p_i)
              ∧ ch.p_i + 1 + (ch.aML : Int) = args.p_i + 1 + (args.aML : Int)) →
            ∃ lr, recurseChildren fm ff cc cns n L = some lr
              ∧ ∀ c ∈ lr, c.a3 cns.pattern.length = 0 := by
          intro L
          induction L with
          | nil => exact fun _ => ⟨[], by simp only [recurseChildren], by simp⟩
          | cons ch rest ihL =>
            intro hL
            have hc1 := hL ch (List.mem_cons_self ch rest)
            obtain ⟨l1, h1, hp1⟩ := ih ch (by omega) (by omega)
            obtain ⟨l2, h2, hp2⟩ := ihL (fun ch' h' => hL ch' (List.mem_cons_of_mem ch h'))
            refine ⟨l1 ++ l2, ?_, fun c hc => (List.mem_append.mp hc).elim (hp1 c) (hp2 c)⟩
            simp only [recurseChildren]
            exact optAppend_some h1 h2
        obtain ⟨lr, hr, hpr⟩ := hGen _ hch
        obtain ⟨l1, h1, hp1⟩ : ∃ l1, (if cc ((max args.aML args.bML + 1 : Nat) : Int)
              (completedBlocks cns args.p_i) cns.config.thresh args.errors = true
              ∧ args.lastOp.allows_candidates = true then
            addCandidatesFromPositions (fm.resolve (dollarInterval fm args.iv)) cns
              args.aML args.bML args.debug false
          else some []) = some l1 ∧ ∀ c ∈ l1, c.a3 cns.pattern.length = 0 := by
          split
          · exact addCandidatesFromPositions_geom cns args.aML args.bML args.debug false _
              (fun p hp => candidatesForPosition_false_geom cns args.aML args.bML
                args.debug p hle)
          · exact ⟨[], rfl, by simp⟩
        exact ⟨l1 ++ lr, optAppend_some h1 hr,
          fun c hc => (List.mem_append.mp hc).elim (hp1 c) (hpr c)⟩

/-- C10: geometry invariants.  For any search state satisfying the entry
invariant of `generate_candidates` (`p_i + 1 + a_match_len + blind_a_chars
= pattern length`, `p_i ≥ -1`, and match positions that never point at the
leading sentinel), the recursion never panics — in particular the
materializer's `assert!(a3 == 0)` and `assert!(a1 * b1 == 0)` always pass,
modelled by the result being `some` — and every produced Candidate
re-passes verify's `a3 = 0` assertion (via the accessor on
`overhang_left_a`) and has recovered offsets `a1`, `b1` that are never
both nonzero. -/
theorem C10_geometry_invariants (fm : FMEnv) (ff : Int → Int → Int)
    (cc : Int → Int → Int → Int → Bool) (cns : SearchConstants)
    (hres : ∀ iv : Intv, ∀ p ∈ fm.resolve iv, 1 ≤ p)
    (fuel : Nat) (args : CallArgs)
    (hp : -1 ≤ args.p_i)
    (hinv : args.p_i + 1 + (args.aML : Int) + (cns.blind_a_chars : Int)
      = (cns.pattern.length : Int)) :
    ∃ l, recurse fm ff cc cns fuel args = some l
      ∧ ∀ c ∈ l, c.a3 cns.pattern.length = 0
        ∧ (c.a1 : Int) * (c.b1 : Int) = 0 := by
  obtain ⟨l, hl, hP⟩ := recurse_geom fm ff cc cns hres fuel args hp hinv
  refine ⟨l, hl, fun c hc => ⟨hP c hc, ?_⟩⟩
  unfold Candidate.a1 Candidate.b1
  rcases le_or_lt 0 c.overhang_left_a with h | h
  · have hz : (-c.overhang_left_a).toNat = 0 := Int.toNat_of_nonpos (by omega)
    rw [hz]
    simp
  · have hz : c.overhang_left_a.toNat = 0 := Int.toNat_of_nonpos (le_of_lt h)
    rw [hz]
    simp

/-- Witness for C10 at a concrete entry state: a one-character pattern
with an empty alphabet and an index resolving no positions. -/
theorem C10_geometry_invariants_witness :
    let fm : FMEnv := { less := fun _ => 1, occ := fun _ _ => 1, resolve := fun _ => [] }
    let config : Config :=
      { err_rate := 0, thresh := 0, reversals := false,
        inclusions := false, edit_distance := false, alphabet := [] }
    let maps : Maps := { text := [], id2name_vec := [], id2index := [], num_ids := 0 }
    let cns : SearchConstants :=
      { config := config, maps := maps, block_id_lookup := [], pattern := [65],
        id_a := 0, blind_a_chars := 0, hard_error_cap := 0, max_b_len := 1,
        first_block_id := 0, patt_blocks := 1 }
    let args : CallArgs :=
      { errors := 0, p_i := 0, lastOp := LastOperation.Initial,
        aML := 0, bML := 0, iv := { lower := 0, upper := 0 }, sym := none, debug := "" }
    (∀ iv : Intv, ∀ p ∈ fm.resolve iv, 1 ≤ p)
    ∧ (-1 : Int) ≤ args.p_i
    ∧ args.p_i + 1 + (args.aML : Int) + (cns.blind_a_chars : Int)
        = (cns.pattern.length : Int)
    ∧ ∃ l, recurse fm (fun _ _ => 0) (fun _ _ _ _ => false) cns 1 args = some l
        ∧ ∀ c ∈ l, c.a3 cns.pattern.length = 0
          ∧ (c.a1 : Int) * (c.b1 : Int) = 0 := by
  intro fm config maps cns args
  refine ⟨fun iv p hp => absurd hp (List.not_mem_nil p), by norm_num, by norm_num, ?_⟩
  exact C10_geometry_invariants fm (fun _ _ => 0) (fun _ _ _ _ => false) cns
    (fun iv p hp => absurd hp (List.not_mem_nil p)) 1 args (by norm_num) (by norm_num)

end Overlaps
